import Mathlib

set_option maxRecDepth 40000

/-!
Verification of the Eigen AVX math kernels
(`Eigen/src/Core/arch/AVX/MathFunctions.h`): the 8-lane single-precision
sine kernel `psin<Packet8f>`, the square-root kernels `psqrt` and the
reciprocal-square-root kernels `prsqrt` in their fast (`EIGEN_FAST_MATH`)
and exact modes, and the delegating `plog`/`pexp`/`ptanh` wrappers.

A single-precision lane is modelled by its IEEE-754 binary32 bit pattern,
a natural number of which only the low 32 bits are read (bit 31 the sign,
bits 23..30 the biased exponent, bits 0..22 the fraction).  The lane
arithmetic beneath the kernels (`pmul`, `padd`, `psub`, `pmadd`, the
`_mm256_*` comparison / floor / convert intrinsics) is IEEE-754 binary32
arithmetic in round-to-nearest-even, implemented executably below.
Hardware-supplied black boxes (the approximate reciprocal-square-root
estimate `_mm256_rsqrt_ps`, the exact roots `_mm256_sqrt_ps/pd`,
the exact divisions `_mm256_div_ps/pd`) and the external log/exp/tanh
kernels are abstract parameters, as the spec treats them as external
collaborators.
-/

/-- Sign bit (bit 31) of a binary32 pattern, as a `Bool` (`true` = negative). -/
def sgnB (b : Nat) : Bool := b / 0x80000000 % 2 == 1

/-- Biased exponent field (bits 23..30) of a binary32 pattern. -/
def expf (b : Nat) : Nat := b / 0x800000 % 256

/-- Fraction field (bits 0..22) of a binary32 pattern. -/
def frac (b : Nat) : Nat := b % 0x800000

/-- The pattern is a NaN: exponent field all ones, nonzero fraction. -/
def isNaNb (b : Nat) : Bool := expf b == 255 && frac b != 0

/-- The pattern is an infinity: exponent field all ones, zero fraction. -/
def isInfb (b : Nat) : Bool := expf b == 255 && frac b == 0

/-- The pattern is a (signed) zero. -/
def isZerob (b : Nat) : Bool := expf b == 0 && frac b == 0

/-- Integral significand of a finite pattern (implicit leading bit added
for normal numbers). -/
def mantNat (b : Nat) : Nat := if expf b == 0 then frac b else frac b + 0x800000

/-- Base-2 exponent of a finite pattern, so that its value is
`±mantNat b * 2 ^ expInt b`.  Subnormals share the exponent of the
smallest normal. -/
def expInt (b : Nat) : Int := (if expf b == 0 then 1 else (expf b : Int)) - 150

/-- Value of a finite pattern as a signed multiple of `2 ^ (-149)`
(every finite binary32 is such a multiple). -/
def val149 (b : Nat) : Int :=
  (if sgnB b then -1 else 1) * (mantNat b * 2 ^ (expInt b + 149).toNat : Nat)

/-- Pack sign, biased-exponent and fraction fields into a bit pattern.
Fields are taken modulo their widths, as a bit packer does. -/
def packb (s : Bool) (B m : Nat) : Nat :=
  (if s then 0x80000000 else 0) + B % 256 * 0x800000 + m % 0x800000

/-- The canonical quiet NaN produced by invalid operations in this model.
The claims under verification never depend on NaN payload propagation. -/
def qNaN : Nat := 0x7fc00000

/-- Bit length of a natural number (`0` for `0`), via an explicit fuel
argument so that the recursion is structural and kernel-reducible. -/
def blen : Nat → Nat → Nat
  | 0, _ => 0
  | f + 1, n => if n == 0 then 0 else blen f (n / 2) + 1

/-- Bit length: `2 ^ (bitlen n - 1) ≤ n < 2 ^ bitlen n` for `n > 0`. -/
def bitlen (n : Nat) : Nat := blen n n

/-- Round `n / d` to the nearest integer, ties to even (`d > 0`). -/
def roundDivNat (n d : Nat) : Nat :=
  let q := n / d
  let r := n % d
  if 2 * r > d || (2 * r == d && q % 2 == 1) then q + 1 else q

/-- Final packaging of a rounded significand `k` at ulp exponent `u`
(`u ≥ -149`; value `k * 2 ^ u`) into a binary32 pattern.  Invariants of
the callers: `k ≤ 2 ^ 24`, and `k < 2 ^ 23` only when `u = -149`. -/
def finishEncode (s : Bool) (k : Nat) (u : Int) : Nat :=
  if k == 0 then packb s 0 0
  else if k < 0x800000 then packb s 0 k
  else if k == 0x1000000 then
    (if u + 151 ≥ 255 then packb s 255 0 else packb s (u + 151).toNat 0)
  else if u + 150 ≥ 255 then packb s 255 0
  else packb s (u + 150).toNat (k - 0x800000)

/-- Round the dyadic rational `±(M * 2 ^ E)` to the nearest binary32
(round-to-nearest, ties to even), with overflow to infinity and gradual
underflow to subnormals and zero. -/
def encodeRounded (s : Bool) (M : Nat) (E : Int) : Nat :=
  if M == 0 then packb s 0 0
  else
    let e : Int := (bitlen M : Int) - 1 + E
    let u : Int := max (e - 23) (-149)
    let k : Nat :=
      if E ≥ u then M * 2 ^ (E - u).toNat else roundDivNat M (2 ^ (u - E).toNat)
    finishEncode s k u

/-- `num * 2 ^ (-g) ≥ den * 2 ^ g` — i.e. `num / den ≥ 2 ^ g` — for a
possibly negative `g` (exactly one of the two shifts is nonzero). -/
def ratGe2 (num den : Nat) (g : Int) : Bool :=
  num * 2 ^ (-g).toNat ≥ den * 2 ^ g.toNat

/-- Round the rational `±(num / den)` to the nearest binary32
(round-to-nearest, ties to even).  Used to obtain the bit patterns of the
decimal literals of the source file exactly as a C++ compiler does. -/
def f32ofRat (s : Bool) (num den : Nat) : Nat :=
  if num == 0 || den == 0 then packb s 0 0
  else
    let g : Int := (bitlen num : Int) - (bitlen den : Int)
    let e : Int := if ratGe2 num den g then g else g - 1
    let u : Int := max (e - 23) (-149)
    let k : Nat := roundDivNat (num * 2 ^ (-u).toNat) (den * 2 ^ u.toNat)
    finishEncode s k u

/-- IEEE-754 ordered-quiet less-than on binary32 patterns
(`_CMP_LT_OQ`): `false` whenever an operand is NaN; `-0 = +0`. -/
def fltB (a b : Nat) : Bool :=
  if isNaNb a || isNaNb b then false
  else if isInfb a then sgnB a && !(isInfb b && sgnB b)
  else if isInfb b then !sgnB b
  else val149 a < val149 b

/-- IEEE-754 ordered-quiet less-or-equal on binary32 patterns. -/
def fleB (a b : Nat) : Bool :=
  if isNaNb a || isNaNb b then false
  else if isInfb a then sgnB a || (isInfb b && !sgnB b)
  else if isInfb b then !sgnB b
  else val149 a ≤ val149 b

/-- `_CMP_GE_OQ`. -/
def fgeB (a b : Nat) : Bool := fleB b a

/-- `_CMP_GT_OQ`. -/
def fgtB (a b : Nat) : Bool := fltB b a

/-- IEEE-754 binary32 multiplication, round-to-nearest-even. -/
def fmul (a b : Nat) : Nat :=
  let s : Bool := sgnB a != sgnB b
  if isNaNb a || isNaNb b then qNaN
  else if isInfb a then (if isZerob b then qNaN else packb s 255 0)
  else if isInfb b then (if isZerob a then qNaN else packb s 255 0)
  else if isZerob a || isZerob b then packb s 0 0
  else encodeRounded s (mantNat a * mantNat b) (expInt a + expInt b)

/-- IEEE-754 binary32 addition, round-to-nearest-even (an exactly zero
sum of nonzero operands is `+0`; `-0` arises only from `-0 + -0`). -/
def fadd (a b : Nat) : Nat :=
  if isNaNb a || isNaNb b then qNaN
  else if isInfb a then
    (if isInfb b && (sgnB a != sgnB b) then qNaN else packb (sgnB a) 255 0)
  else if isInfb b then packb (sgnB b) 255 0
  else
    let n : Int := val149 a + val149 b
    if n = 0 then packb (sgnB a && sgnB b) 0 0
    else encodeRounded (decide (n < 0)) n.natAbs (-149)

/-- Flip the sign bit of a 32-bit pattern. -/
def flipSign (b : Nat) : Nat := (b % 0x100000000 + 0x80000000) % 0x100000000

/-- IEEE-754 binary32 subtraction: `a + (-b)`, as the hardware defines it. -/
def fsub (a b : Nat) : Nat := fadd a (flipSign b)

/-- IEEE-754 binary32 fused multiply-add `a * b + c` with a single
rounding.  The exact value is a signed multiple of `2 ^ (-298)`. -/
def ffma (a b c : Nat) : Nat :=
  let s : Bool := sgnB a != sgnB b
  if isNaNb a || isNaNb b || isNaNb c then qNaN
  else if isInfb a || isInfb b then
    (if isZerob a || isZerob b then qNaN
     else if isInfb c && (sgnB c != s) then qNaN
     else packb s 255 0)
  else if isInfb c then packb (sgnB c) 255 0
  else
    let n : Int :=
      (if s then -1 else 1) * (mantNat a * mantNat b : Nat)
          * 2 ^ (expInt a + expInt b + 298).toNat
        + val149 c * 2 ^ 149
    if n = 0 then packb (s && sgnB c) 0 0
    else encodeRounded (decide (n < 0)) n.natAbs (-298)

/-- `_mm256_floor_ps`, lane-wise: round toward negative infinity to an
integral value (the result of a finite nonzero lane is always exactly
representable). -/
def ffloor (b : Nat) : Nat :=
  if isNaNb b then qNaN
  else if isInfb b then packb (sgnB b) 255 0
  else if isZerob b then packb (sgnB b) 0 0
  else
    let n : Int := Int.fdiv (val149 b) (2 ^ 149)
    if n = 0 then packb (sgnB b) 0 0
    else encodeRounded (decide (n < 0)) n.natAbs 0

/-- `_mm256_cvtps_epi32`, lane-wise: convert to a 32-bit two's-complement
integer, round-to-nearest-even; NaN, infinities and out-of-range values
give the integer-indefinite pattern `0x80000000`. -/
def fcvt_i32 (b : Nat) : Nat :=
  if isNaNb b || isInfb b then 0x80000000
  else
    let k : Nat :=
      if expInt b ≥ 0 then mantNat b * 2 ^ (expInt b).toNat
      else roundDivNat (mantNat b) (2 ^ (-expInt b).toNat)
    let n : Int := if sgnB b then -(k : Int) else k
    if n < -0x80000000 || n > 0x7fffffff then 0x80000000
    else if n < 0 then (n + 0x100000000).toNat else n.toNat

/-- All-ones / all-zeros 32-bit lane mask from a comparison result
(the sole result form of the `_mm256_cmp_ps` intrinsics). -/
def mask32 (b : Bool) : Nat := if b then 0xffffffff else 0

/-- Lane-wise `_mm256_and_ps` (pure bit operation). -/
def band (a b : Nat) : Nat := a &&& b

/-- Lane-wise `_mm256_or_ps` (pure bit operation). -/
def bor (a b : Nat) : Nat := a ||| b

/-- Lane-wise `_mm256_xor_ps` (pure bit operation). -/
def bxor (a b : Nat) : Nat := a ^^^ b

/-- Lane-wise `_mm256_andnot_ps m v = (~m) & v` on 32-bit lanes. -/
def bandnot (m v : Nat) : Nat := (0xffffffff ^^^ m) &&& v

/-! ## Lane constants of the source file

Each `_EIGEN_DECLARE_CONST_Packet8f(name, literal)` broadcasts the
binary32 rounding of a decimal literal; `..._FROM_INT` broadcasts a bit
pattern directly.  The decimal literals are reproduced digit for digit. -/

/-- `1.0f`. -/
def cF_one : Nat := f32ofRat false 1 1

/-- `2.0f`. -/
def cF_two : Nat := f32ofRat false 2 1

/-- `0.25f`. -/
def cF_one_over_four : Nat := f32ofRat false 1 4

/-- `3.183098861837907e-01f` (≈ 1/π). -/
def cF_one_over_pi : Nat := f32ofRat false 3183098861837907 (10 ^ 16)

/-- `-3.140625000000000e+00f`. -/
def cF_neg_pi_first : Nat := f32ofRat true 3140625 (10 ^ 6)

/-- `-9.670257568359375e-04f`. -/
def cF_neg_pi_second : Nat := f32ofRat true 9670257568359375 (10 ^ 19)

/-- `-6.278329571784980e-07f`. -/
def cF_neg_pi_third : Nat := f32ofRat true 627832957178498 (10 ^ 21)

/-- `1.273239544735163e+00f` (≈ 4/π). -/
def cF_four_over_pi : Nat := f32ofRat false 1273239544735163 (10 ^ 15)

/-- `9.999999724233232e-01f`. -/
def cF_cr0 : Nat := f32ofRat false 9999999724233232 (10 ^ 16)

/-- `-3.084242535619928e-01f`. -/
def cF_cr2 : Nat := f32ofRat true 3084242535619928 (10 ^ 16)

/-- `1.584991525700324e-02f`. -/
def cF_cr4 : Nat := f32ofRat false 1584991525700324 (10 ^ 17)

/-- `-3.188805084631342e-04f`. -/
def cF_cr6 : Nat := f32ofRat true 3188805084631342 (10 ^ 19)

/-- `7.853981525427295e-01f`. -/
def cF_cl1 : Nat := f32ofRat false 7853981525427295 (10 ^ 16)

/-- `-8.074536727092352e-02f`. -/
def cF_cl3 : Nat := f32ofRat true 8074536727092352 (10 ^ 17)

/-- `2.489871967827018e-03f`. -/
def cF_cl5 : Nat := f32ofRat false 2489871967827018 (10 ^ 18)

/-- `-3.587725841214251e-05f`. -/
def cF_cl7 : Nat := f32ofRat true 3587725841214251 (10 ^ 20)

/-- `0.5f` (`pset1<Packet8f>(.5f)` in `psqrt`). -/
def cF_half : Nat := f32ofRat false 1 2

/-- `1.5f`. -/
def cF_one_point_five : Nat := f32ofRat false 3 2

/-- `-0.5f`. -/
def cF_minus_half : Nat := f32ofRat true 1 2

/-- `std::numeric_limits<float>::min()` = `2^-126`, the smallest positive
normal binary32 (`psqrt`); pattern `0x00800000`, which is also the
`_FROM_INT(flt_min, 0x00800000)` constant of `prsqrt`. -/
def cF_flt_min : Nat := f32ofRat false 1 (2 ^ 126)

/-- `_FROM_INT(inf, 0x7f800000)`. -/
def cF_inf : Nat := 0x7f800000

/-- `_FROM_INT(nan, 0x7fc00000)`. -/
def cF_nan : Nat := 0x7fc00000

/-- IEEE binary64 bit pattern of `1.0` (`_EIGEN_DECLARE_CONST_Packet4d(one, 1.0)`). -/
def cD_one : Nat := 0x3FF0000000000000

/-! ## The scalar (per-lane) pipelines of the kernels

Every vector operation used by the source kernels acts lane-wise, so each
kernel is transcribed as a straight-line scalar computation, one
definition per local variable of the source, and the packet kernels are
their pointwise liftings.

Modelled from the spec: the lane primitives `pmul`, `padd`, `psub` and
the fused `pmadd` live in `PacketMath.h`, outside the provided source;
per the spec they are the elementwise IEEE arithmetic and fused
multiply-add of the lane-vector collaborator, so they are modelled here
by `fmul`, `fadd`, `fsub` and `ffma`. -/

/-- `psin`: `z = pmul(x, p8f_one_over_pi)` (first use of `z`). -/
def sinS_z1 (x : Nat) : Nat := fmul x cF_one_over_pi

/-- `psin`: `shift = _mm256_floor_ps(padd(z, p8f_one_over_four))`. -/
def sinS_shift (x : Nat) : Nat := ffloor (fadd (sinS_z1 x) cF_one_over_four)

/-- `psin`: the three cascaded Cody-Waite steps
`x = pmadd(shift, p8f_neg_pi_first, x); x = pmadd(shift, p8f_neg_pi_second, x);
x = pmadd(shift, p8f_neg_pi_third, x)`. -/
def sinS_xr (x : Nat) : Nat :=
  ffma (sinS_shift x) cF_neg_pi_third
    (ffma (sinS_shift x) cF_neg_pi_second
      (ffma (sinS_shift x) cF_neg_pi_first x))

/-- `psin`: `z = pmul(x, p8f_four_over_pi)` (recomputed reduced coordinate). -/
def sinS_z (x : Nat) : Nat := fmul (sinS_xr x) cF_four_over_pi

/-- `psin`: `shift_ints = _mm256_cvtps_epi32(shift)`. -/
def sinS_shift_ints (x : Nat) : Nat := fcvt_i32 (sinS_shift x)

/-- `psin`: `shift_isodd` — bitwise AND of `shift_ints` with the
integer-lane constant `1` (the float/int casts around it only
reinterpret bits). -/
def sinS_shift_isodd (x : Nat) : Nat := band (sinS_shift_ints x) 1

/-- `psin`: `sign_flip_mask = pshiftleft(shift_isodd, 31)` — a logical
left shift of each 32-bit integer lane (both the AVX2 and the split-lane
implementations of `pshiftleft` shift each lane by `n`). -/
def sinS_sign_flip (x : Nat) : Nat := (sinS_shift_isodd x <<< 31) % 0x100000000

/-- `psin`: the interval comparison `_mm256_cmp_ps(z, p8f_one, _CMP_GT_OQ)`. -/
def sinS_ival (x : Nat) : Bool := fgtB (sinS_z x) cF_one

/-- `psin`: `z_minus_two = psub(z, p8f_two)`. -/
def sinS_zm2 (x : Nat) : Nat := fsub (sinS_z x) cF_two

/-- `psin`: `z_minus_two2 = pmul(z_minus_two, z_minus_two)`. -/
def sinS_zm22 (x : Nat) : Nat := fmul (sinS_zm2 x) (sinS_zm2 x)

/-- `psin`: the right interpolant, three `pmadd` Horner steps in
`z_minus_two2`. -/
def sinS_right (x : Nat) : Nat :=
  ffma (ffma (ffma cF_cr6 (sinS_zm22 x) cF_cr4) (sinS_zm22 x) cF_cr2)
    (sinS_zm22 x) cF_cr0

/-- `psin`: `z2 = pmul(z, z)`. -/
def sinS_z2 (x : Nat) : Nat := fmul (sinS_z x) (sinS_z x)

/-- `psin`: the left interpolant, three `pmadd` Horner steps in `z2`
followed by `left = pmul(left, z)`. -/
def sinS_left (x : Nat) : Nat :=
  fmul (ffma (ffma (ffma cF_cl7 (sinS_z2 x) cF_cl5) (sinS_z2 x) cF_cl3)
      (sinS_z2 x) cF_cl1)
    (sinS_z x)

/-- `psin`: the branchless assembly
`res = or(andnot(ival_mask, left), and(ival_mask, right))`. -/
def sinS_res0 (x : Nat) : Nat :=
  bor (bandnot (mask32 (sinS_ival x)) (sinS_left x))
    (band (mask32 (sinS_ival x)) (sinS_right x))

/-- `psin`: the final sign flip `res = xor(res, sign_flip_mask)`. -/
def sinS (x : Nat) : Nat := bxor (sinS_res0 x) (sinS_sign_flip x)

/-- An 8-lane single-precision packet: 8 binary32 bit patterns. -/
def Packet8f : Type := Fin 8 → Nat

/-- A 4-lane double-precision packet: 4 binary64 bit patterns. -/
def Packet4d : Type := Fin 4 → Nat

/-- `psin<Packet8f>`: the sine kernel, lane-wise. -/
def psin (x : Packet8f) : Packet8f := fun i => sinS (x i)

/-- The `shift` vector of `psin<Packet8f>`. -/
def psin_shift (x : Packet8f) : Packet8f := fun i => sinS_shift (x i)

/-- The reduced argument of `psin<Packet8f>` after the three Cody-Waite steps. -/
def psin_xr (x : Packet8f) : Packet8f := fun i => sinS_xr (x i)

/-- The recomputed reduced coordinate `z` of `psin<Packet8f>`. -/
def psin_z (x : Packet8f) : Packet8f := fun i => sinS_z (x i)

/-- The right interpolant vector of `psin<Packet8f>`. -/
def psin_right (x : Packet8f) : Packet8f := fun i => sinS_right (x i)

/-- The left interpolant vector of `psin<Packet8f>`. -/
def psin_left (x : Packet8f) : Packet8f := fun i => sinS_left (x i)

/-- The combined (pre-sign-flip) result vector of `psin<Packet8f>`. -/
def psin_res0 (x : Packet8f) : Packet8f := fun i => sinS_res0 (x i)

/-- The `sign_flip_mask` vector of `psin<Packet8f>`. -/
def psin_sign_flip (x : Packet8f) : Packet8f := fun i => sinS_sign_flip (x i)

/-- `psqrt<Packet8f>`, `EIGEN_FAST_MATH` branch, one lane: estimate `e`
is the hardware `_mm256_rsqrt_ps` lane result for the input lane `x`. -/
def psqrtS (e x : Nat) : Nat :=
  let half := fmul x cF_half
  let denormal_mask := band (mask32 (fltB x cF_flt_min)) (mask32 (fgeB x 0))
  let x1 := fmul e (fsub cF_one_point_five (fmul half (fmul e e)))
  bandnot denormal_mask (fmul x x1)

/-- `psqrt<Packet8f>` in fast mode, over the abstract hardware
reciprocal-square-root estimate `est`. -/
def psqrt8f_fast (est : Nat → Nat) (x : Packet8f) : Packet8f :=
  fun i => psqrtS (est (x i)) (x i)

/-- `psqrt<Packet8f>` in exact mode: delegation to `_mm256_sqrt_ps`. -/
def psqrt8f_exact (sqrtHW : Nat → Nat) (x : Packet8f) : Packet8f :=
  fun i => sqrtHW (x i)

/-- `psqrt<Packet8f>` under the build-time `EIGEN_FAST_MATH` selection. -/
def psqrt8f (fastMath : Bool) (est sqrtHW : Nat → Nat) (x : Packet8f) : Packet8f :=
  if fastMath then psqrt8f_fast est x else psqrt8f_exact sqrtHW x

/-- `prsqrt<Packet8f>`, `EIGEN_FAST_MATH` branch, one lane: estimate `e`
is the hardware `_mm256_rsqrt_ps` lane result for the input lane `x`. -/
def prsqrtS (e x : Nat) : Nat :=
  let neg_half := fmul x cF_minus_half
  let le_zero_mask := mask32 (fltB x cF_flt_min)
  let x1 := bandnot le_zero_mask e
  let neg_mask := mask32 (fltB x 0)
  let zero_mask := bandnot neg_mask le_zero_mask
  let infs_and_nans := bor (band neg_mask cF_nan) (band zero_mask cF_inf)
  let x2 := fmul x1 (ffma neg_half (fmul x1 x1) cF_one_point_five)
  bor x2 infs_and_nans

/-- `prsqrt<Packet8f>` in fast mode, over the abstract hardware
reciprocal-square-root estimate `est`. -/
def prsqrt8f_fast (est : Nat → Nat) (x : Packet8f) : Packet8f :=
  fun i => prsqrtS (est (x i)) (x i)

/-- `prsqrt<Packet8f>` in exact (division) mode:
`_mm256_div_ps(p8f_one, _mm256_sqrt_ps(x))`. -/
def prsqrt8f_exact (sqrtHW : Nat → Nat) (divHW : Nat → Nat → Nat) (x : Packet8f) : Packet8f :=
  fun i => divHW cF_one (sqrtHW (x i))

/-- `prsqrt<Packet8f>` under the build-time `EIGEN_FAST_MATH` selection. -/
def prsqrt8f (fastMath : Bool) (est sqrtHW : Nat → Nat)
    (divHW : Nat → Nat → Nat) (x : Packet8f) : Packet8f :=
  if fastMath then prsqrt8f_fast est x else prsqrt8f_exact sqrtHW divHW x

/-- `psqrt<Packet4d>`: unconditional delegation to `_mm256_sqrt_pd`; the
source defines it outside the `EIGEN_FAST_MATH` conditional, so the
build flag is taken and ignored. -/
def psqrt4d (fastMath : Bool) (sqrtHW64 : Nat → Nat) (x : Packet4d) : Packet4d :=
  fun i => sqrtHW64 (x i)

/-- `prsqrt<Packet4d>`: unconditionally
`_mm256_div_pd(p4d_one, _mm256_sqrt_pd(x))`; the source defines it
outside the `EIGEN_FAST_MATH` conditional, so the build flag is taken
and ignored. -/
def prsqrt4d (fastMath : Bool) (sqrtHW64 : Nat → Nat)
    (divHW64 : Nat → Nat → Nat) (x : Packet4d) : Packet4d :=
  fun i => divHW64 cD_one (sqrtHW64 (x i))

/-- `plog<Packet8f>`: pure delegation to the external `plog_float` kernel. -/
def plog8f (logk : Packet8f → Packet8f) (x : Packet8f) : Packet8f := logk x

/-- `pexp<Packet8f>`: pure delegation to the external `pexp_float` kernel. -/
def pexp8f (expk : Packet8f → Packet8f) (x : Packet8f) : Packet8f := expk x

/-- `ptanh<Packet8f>`: pure delegation to the external
`generic_fast_tanh_float` kernel. -/
def ptanh8f (tanhk : Packet8f → Packet8f) (x : Packet8f) : Packet8f := tanhk x

/-- `pexp<Packet4d>`: pure delegation to the external `pexp_double` kernel. -/
def pexp4d (expk : Packet4d → Packet4d) (x : Packet4d) : Packet4d := expk x

/-! ## Decoding lemmas for the bit packer and the rounding pipeline -/

lemma packb_lt (s : Bool) (B m : Nat) : packb s B m < 0x100000000 := by
  have h1 : B % 256 < 256 := Nat.mod_lt _ (by norm_num)
  have h2 : m % 0x800000 < 0x800000 := Nat.mod_lt _ (by norm_num)
  cases s <;> simp [packb] <;> omega

lemma sgnB_packb (s : Bool) (B m : Nat) : sgnB (packb s B m) = s := by
  have h1 : B % 256 < 256 := Nat.mod_lt _ (by norm_num)
  have h2 : m % 0x800000 < 0x800000 := Nat.mod_lt _ (by norm_num)
  cases s <;> simp [packb, sgnB] <;> omega

lemma expf_packb (s : Bool) (B m : Nat) : expf (packb s B m) = B % 256 := by
  have h1 : B % 256 < 256 := Nat.mod_lt _ (by norm_num)
  have h2 : m % 0x800000 < 0x800000 := Nat.mod_lt _ (by norm_num)
  cases s <;> simp [packb, expf] <;> omega

lemma frac_packb (s : Bool) (B m : Nat) : frac (packb s B m) = m % 0x800000 := by
  have h1 : B % 256 < 256 := Nat.mod_lt _ (by norm_num)
  cases s <;> simp [packb, frac] <;> omega

lemma isNaNb_packb (s : Bool) (B m : Nat) (h : B % 256 ≠ 255 ∨ m % 0x800000 = 0) :
    isNaNb (packb s B m) = false := by
  simp [isNaNb, expf_packb, frac_packb] <;> omega

lemma isInfb_packb (s : Bool) (B m : Nat) (h : B % 256 ≠ 255) :
    isInfb (packb s B m) = false := by
  simp [isInfb, expf_packb, frac_packb] <;> omega

lemma mantNat_lt (b : Nat) : mantNat b < 0x1000000 := by
  have : b % 0x800000 < 0x800000 := Nat.mod_lt _ (by norm_num)
  simp only [mantNat, frac]
  split <;> omega

lemma expf_lt (b : Nat) : expf b < 256 := Nat.mod_lt _ (by norm_num)

lemma expf_ne_255 (b : Nat) (hn : isNaNb b = false) (hi : isInfb b = false) :
    expf b ≠ 255 := by
  intro h
  simp only [isNaNb, isInfb, h, beq_self_eq_true, Bool.true_and] at hn hi
  simp at hn hi
  exact hi hn

lemma expInt_le (b : Nat) (hn : isNaNb b = false) (hi : isInfb b = false) :
    expInt b ≤ 104 := by
  have h1 := expf_ne_255 b hn hi
  have h2 := expf_lt b
  simp only [expInt, beq_iff_eq]
  split <;> omega

lemma expInt_ge (b : Nat) : -149 ≤ expInt b := by
  simp only [expInt, beq_iff_eq]
  split <;> omega

/-! ## Bit-length bounds -/

lemma blen_zero (f : Nat) : blen f 0 = 0 := by cases f <;> simp [blen]

lemma blen_bounds : ∀ f n, n ≤ f → n < 2 ^ blen f n ∧ (0 < n → 2 ^ (blen f n - 1) ≤ n) := by
  intro f
  induction f with
  | zero =>
    intro n hn
    have h0 : n = 0 := Nat.le_zero.mp hn
    subst h0
    simp [blen]
  | succ f ih =>
    intro n hn
    by_cases h0 : n = 0
    · subst h0; simp [blen]
    · have hrec : n / 2 ≤ f := by omega
      obtain ⟨ih1, ih2⟩ := ih (n / 2) hrec
      have hb : blen (f + 1) n = blen f (n / 2) + 1 := by
        simp [blen, h0]
      rw [hb]
      have hp : 2 ^ (blen f (n / 2) + 1) = 2 * 2 ^ blen f (n / 2) := by ring
      constructor
      · omega
      · intro _
        by_cases h2 : n / 2 = 0
        · rw [h2, blen_zero]
          simpa using by omega
        · have hpos := ih2 (Nat.pos_of_ne_zero h2)
          have hb1 : 1 ≤ blen f (n / 2) := by
            by_contra hc
            have : blen f (n / 2) = 0 := by omega
            rw [this] at ih1
            omega
          have hq : 2 ^ (blen f (n / 2)) = 2 * 2 ^ (blen f (n / 2) - 1) := by
            rw [← pow_succ']
            congr 1
            omega
          simp only [Nat.add_sub_cancel]
          omega

lemma bitlen_lt (n : Nat) : n < 2 ^ bitlen n := (blen_bounds n n le_rfl).1

lemma bitlen_lower (n : Nat) (h : 0 < n) : 2 ^ (bitlen n - 1) ≤ n :=
  (blen_bounds n n le_rfl).2 h

lemma bitlen_le_of_lt (n k : Nat) (h : n < 2 ^ k) : bitlen n ≤ k := by
  by_cases h0 : n = 0
  · subst h0
    simp [bitlen, blen]
  · by_contra hc
    push_neg at hc
    have h1 : k ≤ bitlen n - 1 := by omega
    have h2 : 2 ^ k ≤ 2 ^ (bitlen n - 1) := Nat.pow_le_pow_right (by norm_num) h1
    have h3 := bitlen_lower n (Nat.pos_of_ne_zero h0)
    omega

/-! ## The rounding pipeline never fabricates NaNs, and overflows to
infinity only when the exact magnitude reaches `2 ^ 127` -/

lemma isNaNb_finishEncode (s : Bool) (k : Nat) (u : Int) :
    isNaNb (finishEncode s k u) = false := by
  unfold finishEncode
  split
  · exact isNaNb_packb s 0 0 (Or.inl (by norm_num))
  split
  · exact isNaNb_packb s 0 _ (Or.inl (by norm_num))
  split
  · split
    · exact isNaNb_packb s 255 0 (Or.inr (by norm_num))
    · exact isNaNb_packb s _ 0 (Or.inr (by norm_num))
  split
  · exact isNaNb_packb s 255 0 (Or.inr (by norm_num))
  · rename_i hge
    exact isNaNb_packb s _ _ (Or.inl (by omega))

lemma isInfb_finishEncode (s : Bool) (k : Nat) (u : Int) (hu : u ≤ 103) :
    isInfb (finishEncode s k u) = false := by
  unfold finishEncode
  split
  · exact isInfb_packb s 0 0 (by norm_num)
  split
  · exact isInfb_packb s 0 _ (by norm_num)
  split
  · split
    · rename_i hge
      exact absurd hge (by omega)
    · exact isInfb_packb s _ 0 (by omega)
  split
  · rename_i hge
    exact absurd hge (by omega)
  · exact isInfb_packb s _ _ (by omega)

lemma finishEncode_lt (s : Bool) (k : Nat) (u : Int) :
    finishEncode s k u < 0x100000000 := by
  unfold finishEncode
  split
  · exact packb_lt s 0 0
  split
  · exact packb_lt s 0 _
  split
  · split
    · exact packb_lt s 255 0
    · exact packb_lt s _ 0
  split
  · exact packb_lt s 255 0
  · exact packb_lt s _ _

lemma isNaNb_encodeRounded (s : Bool) (M : Nat) (E : Int) :
    isNaNb (encodeRounded s M E) = false := by
  unfold encodeRounded
  dsimp only
  split
  · exact isNaNb_packb s 0 0 (Or.inl (by norm_num))
  · exact isNaNb_finishEncode s _ _

lemma isInfb_encodeRounded (s : Bool) (M : Nat) (E : Int)
    (h : (bitlen M : Int) - 1 + E ≤ 126) : isInfb (encodeRounded s M E) = false := by
  unfold encodeRounded
  dsimp only
  split
  · exact isInfb_packb s 0 0 (by norm_num)
  · exact isInfb_finishEncode s _ _ (by omega)

lemma encodeRounded_lt (s : Bool) (M : Nat) (E : Int) :
    encodeRounded s M E < 0x100000000 := by
  unfold encodeRounded
  dsimp only
  split
  · exact packb_lt s 0 0
  · exact finishEncode_lt s _ _

/-! ## Range of the arithmetic operations (32-bit patterns) -/

lemma qNaN_lt : qNaN < 0x100000000 := by norm_num [qNaN]

lemma fmul_lt (a b : Nat) : fmul a b < 0x100000000 := by
  unfold fmul
  dsimp only
  repeat' split
  all_goals first
  | exact qNaN_lt
  | exact packb_lt _ _ _
  | exact encodeRounded_lt _ _ _

lemma fadd_lt (a b : Nat) : fadd a b < 0x100000000 := by
  unfold fadd
  dsimp only
  repeat' split
  all_goals first
  | exact qNaN_lt
  | exact packb_lt _ _ _
  | exact encodeRounded_lt _ _ _

lemma fsub_lt (a b : Nat) : fsub a b < 0x100000000 := fadd_lt a _

lemma ffma_lt (a b c : Nat) : ffma a b c < 0x100000000 := by
  unfold ffma
  dsimp only
  repeat' split
  all_goals first
  | exact qNaN_lt
  | exact packb_lt _ _ _
  | exact encodeRounded_lt _ _ _

lemma ffloor_lt (b : Nat) : ffloor b < 0x100000000 := by
  unfold ffloor
  dsimp only
  repeat' split
  all_goals first
  | exact qNaN_lt
  | exact packb_lt _ _ _
  | exact encodeRounded_lt _ _ _

/-! ## Facts extracted from the ordered-quiet comparisons -/

lemma not_nan_of_inf (b : Nat) (h : isInfb b = true) : isNaNb b = false := by
  simp only [isInfb, Bool.and_eq_true, beq_iff_eq] at h
  simp [isNaNb, h.1, h.2]

lemma fltB_not_nan (a b : Nat) (h : fltB a b = true) :
    isNaNb a = false ∧ isNaNb b = false := by
  unfold fltB at h
  by_cases hna : isNaNb a <;> by_cases hnb : isNaNb b <;> simp_all

lemma fleB_not_nan (a b : Nat) (h : fleB a b = true) :
    isNaNb a = false ∧ isNaNb b = false := by
  unfold fleB at h
  by_cases hna : isNaNb a <;> by_cases hnb : isNaNb b <;> simp_all

lemma fltB_false_of_fleB (a b : Nat) (h : fleB b a = true) : fltB a b = false := by
  obtain ⟨hnb, hna⟩ := fleB_not_nan b a h
  unfold fleB at h
  unfold fltB
  simp only [hna, hnb, Bool.or_self, Bool.false_or, Bool.or_false, if_false] at h ⊢
  by_cases hia : isInfb a
  · by_cases hib : isInfb b
    · cases hsa : sgnB a <;> cases hsb : sgnB b <;> simp_all
    · cases hsa : sgnB a <;> simp_all
  · by_cases hib : isInfb b
    · cases hsb : sgnB b <;> simp_all
    · simp_all

lemma fltB_inf_sgn (a b : Nat) (h : fltB a b = true) (hi : isInfb a = true) :
    sgnB a = true := by
  unfold fltB at h
  rw [not_nan_of_inf a hi, hi] at h
  by_cases hnb : isNaNb b <;> simp_all

lemma fleB_right_inf (a x : Nat) (ha : isInfb a = false) (h : fleB a x = true)
    (hi : isInfb x = true) : sgnB x = false := by
  unfold fleB at h
  obtain ⟨hna, hnx⟩ := fleB_not_nan a x h
  rw [hna, hnx, ha, hi] at h
  simp_all

lemma fltB_zero_to_min (x : Nat) (h : fltB x 0 = true) :
    fltB x cF_flt_min = true := by
  have hmin : cF_flt_min = 0x00800000 := by decide
  obtain ⟨hnx, -⟩ := fltB_not_nan x 0 h
  rw [hmin]
  unfold fltB at h ⊢
  rw [hnx] at h ⊢
  simp only [show isNaNb 0 = false from by decide,
    show isNaNb 0x00800000 = false from by decide,
    show isInfb 0 = false from by decide,
    show isInfb 0x00800000 = false from by decide,
    show val149 0 = 0 from by decide,
    show val149 0x00800000 = 8388608 from by decide] at h ⊢
  by_cases hix : isInfb x
  · simp_all
  · simp_all
    omega

/-! ## Finiteness of the auxiliary products of the root kernels -/

lemma fmul_mhalf_finite (x : Nat) (hn : isNaNb x = false) (hi : isInfb x = false) :
    isNaNb (fmul x cF_minus_half) = false ∧ isInfb (fmul x cF_minus_half) = false := by
  have hc : cF_minus_half = 0xBF000000 := by decide
  rw [hc]
  unfold fmul
  dsimp only
  simp only [hn, hi, show isNaNb 0xBF000000 = false from by decide,
    show isInfb 0xBF000000 = false from by decide,
    show isZerob 0xBF000000 = false from by decide,
    show mantNat 0xBF000000 = 0x800000 from by decide,
    show expInt 0xBF000000 = -24 from by decide,
    Bool.or_false, Bool.false_or, Bool.or_self, Bool.false_eq_true, if_false]
  split
  · exact ⟨isNaNb_packb _ 0 0 (Or.inl (by norm_num)), isInfb_packb _ 0 0 (by norm_num)⟩
  · refine ⟨isNaNb_encodeRounded _ _ _, isInfb_encodeRounded _ _ _ ?_⟩
    have hb : mantNat x ≤ 16777215 := by have := mantNat_lt x; omega
    have h1 : mantNat x * 8388608 ≤ 16777215 * 8388608 := Nat.mul_le_mul_right _ hb
    have h2 : bitlen (mantNat x * 8388608) ≤ 47 := by
      refine bitlen_le_of_lt _ 47 ?_
      norm_num
      omega
    have h3 := expInt_le x hn hi
    omega

lemma ffma_zero_c15 (a : Nat) (hn : isNaNb a = false) (hi : isInfb a = false) :
    ffma a 0 cF_one_point_five = cF_one_point_five := by
  have hc : cF_one_point_five = 0x3FC00000 := by decide
  rw [hc]
  unfold ffma
  dsimp only
  simp only [hn, hi, show isNaNb 0 = false from by decide,
    show isNaNb 0x3FC00000 = false from by decide,
    show isInfb 0 = false from by decide,
    show isInfb 0x3FC00000 = false from by decide,
    show mantNat 0 = 0 from by decide,
    Bool.or_false, Bool.false_or, Bool.or_self, Bool.false_eq_true, if_false,
    Nat.mul_zero, Nat.cast_zero, mul_zero, zero_mul, zero_add]
  rw [if_neg (show ¬(val149 0x3FC00000 * 2 ^ 149 = 0) from by decide)]
  decide

/-! ## Bit-mask identities on 32-bit lanes -/

lemma and_ones32 (v : Nat) (hv : v < 0x100000000) : 0xffffffff &&& v = v := by
  rw [Nat.and_comm]
  have h := Nat.and_pow_two_sub_one_eq_mod v 32
  norm_num at h
  rw [h]
  exact Nat.mod_eq_of_lt hv

lemma bandnot_ones (v : Nat) : bandnot 0xffffffff v = 0 := by
  simp [bandnot]

lemma bandnot_zero_mask (v : Nat) (hv : v < 0x100000000) : bandnot 0 v = v := by
  simp only [bandnot, Nat.xor_zero]
  exact and_ones32 v hv

lemma fleB_of_not_lt (a b : Nat) (hna : isNaNb a = false) (hnb : isNaNb b = false)
    (h : fltB a b = false) : fleB b a = true := by
  unfold fltB at h
  unfold fleB
  simp only [hna, hnb, Bool.or_self, Bool.false_or, Bool.or_false,
    Bool.false_eq_true, if_false] at h ⊢
  by_cases hia : isInfb a
  · by_cases hib : isInfb b
    · cases hsa : sgnB a <;> cases hsb : sgnB b <;> simp_all
    · cases hsa : sgnB a <;> simp_all
  · by_cases hib : isInfb b
    · cases hsb : sgnB b <;> simp_all
    · simp_all

/-! ## The three lane classes of the fast reciprocal square root -/

lemma prsqrtS_neg (e x : Nat) (h : fltB x 0 = true) : prsqrtS e x = 0x7fc00000 := by
  obtain ⟨hnx, -⟩ := fltB_not_nan x 0 h
  have hmin := fltB_zero_to_min x h
  unfold prsqrtS
  dsimp only
  rw [h, hmin]
  simp only [mask32, if_true]
  simp only [bandnot_ones]
  simp only [show band 0xffffffff cF_nan = 0x7fc00000 from by decide,
    show band 0 cF_inf = 0 from by decide,
    show fmul 0 0 = 0 from by decide]
  by_cases hix : isInfb x
  · have hsx : sgnB x = true := fltB_inf_sgn x 0 h hix
    have hnh : fmul x cF_minus_half = 0x7f800000 := by
      have hc : cF_minus_half = 0xBF000000 := by decide
      rw [hc]
      unfold fmul
      dsimp only
      simp [hnx, hix, hsx, show isNaNb 0xBF000000 = false from by decide,
        show isZerob 0xBF000000 = false from by decide,
        show sgnB 0xBF000000 = true from by decide]
      all_goals decide
    rw [hnh]
    decide
  · have hix2 : isInfb x = false := by simpa using hix
    obtain ⟨hn1, hn2⟩ := fmul_mhalf_finite x hnx hix2
    rw [ffma_zero_c15 _ hn1 hn2]
    decide

lemma prsqrtS_subnormal (e x : Nat) (hge : fgeB x 0 = true)
    (hlt : fltB x cF_flt_min = true) : prsqrtS e x = 0x7f800000 := by
  obtain ⟨hnx, -⟩ := fltB_not_nan x cF_flt_min hlt
  have hneg : fltB x 0 = false := fltB_false_of_fleB x 0 hge
  have hix : isInfb x = false := by
    by_cases hc : isInfb x = true
    · have h1 : sgnB x = true := fltB_inf_sgn x cF_flt_min hlt hc
      have h2 : sgnB x = false :=
        fleB_right_inf 0 x (by decide) hge hc
      rw [h1] at h2
      exact absurd h2 (by decide)
    · simpa using hc
  unfold prsqrtS
  dsimp only
  rw [hlt, hneg]
  simp only [mask32, if_true, Bool.false_eq_true, if_false]
  simp only [bandnot_ones]
  rw [bandnot_zero_mask 0xffffffff (by norm_num)]
  simp only [show band 0 cF_nan = 0 from by decide,
    show band 0xffffffff cF_inf = 0x7f800000 from by decide,
    show fmul 0 0 = 0 from by decide]
  obtain ⟨hn1, hn2⟩ := fmul_mhalf_finite x hnx hix
  rw [ffma_zero_c15 _ hn1 hn2]
  decide

lemma prsqrtS_other (e x : Nat) (he : e < 0x100000000) (h : fltB x cF_flt_min = false) :
    prsqrtS e x =
      fmul e (ffma (fmul x cF_minus_half) (fmul e e) cF_one_point_five) := by
  have hneg : fltB x 0 = false := by
    by_cases hn : fltB x 0 = true
    · rw [fltB_zero_to_min x hn] at h
      exact absurd h (by decide)
    · simpa using hn
  unfold prsqrtS
  dsimp only
  rw [h, hneg]
  simp only [mask32, Bool.false_eq_true, if_false]
  rw [bandnot_zero_mask e he]
  simp only [show bandnot 0 0 = 0 from by decide,
    show band 0 cF_nan = 0 from by decide,
    show band 0 cF_inf = 0 from by decide,
    show bor (0 : Nat) 0 = 0 from by decide]
  simp [bor]

/-! ## The two lane classes of the fast square root -/

lemma psqrtS_flush (e x : Nat) (h1 : fltB x cF_flt_min = true) (h2 : fgeB x 0 = true) :
    psqrtS e x = 0 := by
  unfold psqrtS
  dsimp only
  rw [h1, h2]
  simp only [mask32, if_true]
  rw [show band 0xffffffff 0xffffffff = 0xffffffff from by decide]
  exact bandnot_ones _

lemma psqrtS_main (e x : Nat) (h : (fltB x cF_flt_min && fgeB x 0) = false) :
    psqrtS e x =
      fmul x (fmul e (fsub cF_one_point_five
        (fmul (fmul x cF_half) (fmul e e)))) := by
  unfold psqrtS
  dsimp only
  have hdm : band (mask32 (fltB x cF_flt_min)) (mask32 (fgeB x 0)) = 0 := by
    cases hp : fltB x cF_flt_min <;> cases hq : fgeB x 0 <;>
      simp_all [mask32, band]
  rw [hdm]
  exact bandnot_zero_mask _ (fmul_lt _ _)

/-! # The claims -/

/-- C1: in the fast-mode 8-lane reciprocal square root, a lane with input
strictly below zero yields the quiet-NaN pattern `0x7fc00000`; a lane with
`0 ≤ input < 2^-126` (zero and subnormals) yields the positive-infinity
pattern `0x7f800000`; every other lane yields the Newton-refined hardware
estimate `x0 * (1.5 + (-0.5 * input) * x0^2)`, the classes being combined
by the bitwise mask arithmetic of the kernel so that each lane receives
exactly one defined value. -/
theorem prsqrt_fast_lane_classes (est : Nat → Nat)
    (hest : ∀ b, est b < 0x100000000) (x : Packet8f) (i : Fin 8) :
    (fltB (x i) 0 = true → prsqrt8f_fast est x i = 0x7fc00000) ∧
    (fgeB (x i) 0 = true ∧ fltB (x i) cF_flt_min = true →
      prsqrt8f_fast est x i = 0x7f800000) ∧
    (fltB (x i) 0 = false ∧ ¬(fgeB (x i) 0 = true ∧ fltB (x i) cF_flt_min = true) →
      prsqrt8f_fast est x i =
        fmul (est (x i))
          (ffma (fmul (x i) cF_minus_half) (fmul (est (x i)) (est (x i)))
            cF_one_point_five)) := by
  refine ⟨fun h => prsqrtS_neg _ _ h, fun h => prsqrtS_subnormal _ _ h.1 h.2, fun h => ?_⟩
  have hlt : fltB (x i) cF_flt_min = false := by
    by_cases hc : fltB (x i) cF_flt_min = true
    · obtain ⟨hnx, -⟩ := fltB_not_nan _ _ hc
      have hge : fgeB (x i) 0 = true :=
        fleB_of_not_lt (x i) 0 hnx (by decide) h.1
      exact absurd ⟨hge, hc⟩ h.2
    · simpa using hc
  exact prsqrtS_other _ _ (hest _) hlt

/-- Witness for C1: the negative lane `-1.0` receives the quiet NaN. -/
theorem prsqrt_fast_lane_classes_witness :
    prsqrt8f_fast (fun _ => 0x3F000000) (fun _ => 0xBF800000) 0 = 0x7fc00000 :=
  (prsqrt_fast_lane_classes (fun _ => 0x3F000000) (fun _ => by norm_num)
    (fun _ => 0xBF800000) 0).1 (by decide)

/-- C5: in the fast-mode 8-lane square root, a lane satisfying
`input < 2^-126` and `input ≥ 0` yields exactly zero, and every other lane
yields `input * x1` with `x1 = x0 * (1.5 - (0.5 * input) * x0^2)` for the
hardware estimate `x0`. -/
theorem psqrt_fast_lane_classes (est : Nat → Nat) (x : Packet8f) (i : Fin 8) :
    (fltB (x i) cF_flt_min = true ∧ fgeB (x i) 0 = true →
      psqrt8f_fast est x i = 0) ∧
    ((fltB (x i) cF_flt_min && fgeB (x i) 0) = false →
      psqrt8f_fast est x i =
        fmul (x i) (fmul (est (x i))
          (fsub cF_one_point_five
            (fmul (fmul (x i) cF_half) (fmul (est (x i)) (est (x i))))))) :=
  ⟨fun h => psqrtS_flush _ _ h.1 h.2, fun h => psqrtS_main _ _ h⟩

/-- Witness for C5: the smallest positive subnormal lane flushes to zero. -/
theorem psqrt_fast_lane_classes_witness :
    psqrt8f_fast (fun _ => 0x5F000000) (fun _ => 0x00000001) 0 = 0 :=
  (psqrt_fast_lane_classes (fun _ => 0x5F000000) (fun _ => 0x00000001) 0).1
    ⟨by decide, by decide⟩

/-- C6: the fast-mode 8-lane square root does not return `+∞` for a
`+∞` input lane: with the hardware estimate `rsqrt(+∞) = +0`, the lane
evaluates to the quiet NaN `0x7fc00000`, which differs from the
IEEE-correct `sqrt(+∞) = +∞ = 0x7f800000`. -/
theorem psqrt_fast_pos_inf (est : Nat → Nat) (hinf : est 0x7f800000 = 0)
    (x : Packet8f) (i : Fin 8) (hx : x i = 0x7f800000) :
    psqrt8f_fast est x i = 0x7fc00000 ∧ psqrt8f_fast est x i ≠ 0x7f800000 := by
  have h0 : psqrt8f_fast est x i = psqrtS (est (x i)) (x i) := rfl
  rw [h0, hx, hinf]
  have h1 : psqrtS 0 0x7f800000 = 0x7fc00000 := by decide
  rw [h1]
  exact ⟨rfl, by decide⟩

/-- Witness for C6. -/
theorem psqrt_fast_pos_inf_witness :
    psqrt8f_fast (fun _ => 0) (fun _ => 0x7f800000) 0 = 0x7fc00000 :=
  (psqrt_fast_pos_inf (fun _ => 0) rfl (fun _ => 0x7f800000) 0 rfl).1

/-- C10: in fast mode, a `-0.0` input lane (`0x80000000`) of the 8-lane
square root satisfies the denormal-range condition (`-0.0 < 2^-126` and
`-0.0 ≥ 0` under IEEE ordered comparison), so the AND-NOT flush clears
every bit of the lane and the kernel returns `+0.0` (all bits zero). -/
theorem psqrt_fast_neg_zero (est : Nat → Nat) (x : Packet8f) (i : Fin 8)
    (hx : x i = 0x80000000) :
    psqrt8f_fast est x i = 0 ∧
    fltB 0x80000000 cF_flt_min = true ∧ fgeB 0x80000000 0 = true := by
  refine ⟨?_, by decide, by decide⟩
  show psqrtS (est (x i)) (x i) = 0
  rw [hx]
  exact psqrtS_flush _ _ (by decide) (by decide)

/-- Witness for C10. -/
theorem psqrt_fast_neg_zero_witness :
    psqrt8f_fast (fun _ => 0x5F000000) (fun _ => 0x80000000) 0 = 0 :=
  (psqrt_fast_neg_zero (fun _ => 0x5F000000) (fun _ => 0x80000000) 0 rfl).1

/-- C2: the sine kernel's range reduction computes
`shift = floor(x * (1/π) + 0.25)`, subtracts `shift * π` from `x` by three
successive fused multiply-adds with the constants `-3.140625`,
`-9.670257568359375e-04` and `-6.278329571784980e-07` (in that order),
and recomputes `z = reduced_x * (4/π)`; the broadcast constants are the
binary32 roundings of exactly those decimal literals. -/
theorem psin_range_reduction (x : Packet8f) (i : Fin 8) :
    psin_shift x i =
      ffloor (fadd (fmul (x i) cF_one_over_pi) cF_one_over_four) ∧
    psin_xr x i =
      ffma (psin_shift x i) cF_neg_pi_third
        (ffma (psin_shift x i) cF_neg_pi_second
          (ffma (psin_shift x i) cF_neg_pi_first (x i))) ∧
    psin_z x i = fmul (psin_xr x i) cF_four_over_pi ∧
    cF_one_over_pi = f32ofRat false 3183098861837907 (10 ^ 16) ∧
    cF_one_over_pi = 0x3EA2F983 ∧
    cF_one_over_four = 0x3E800000 ∧
    cF_neg_pi_first = f32ofRat true 3140625 (10 ^ 6) ∧
    cF_neg_pi_first = 0xC0490000 ∧
    cF_neg_pi_second = f32ofRat true 9670257568359375 (10 ^ 19) ∧
    cF_neg_pi_second = 0xBA7D8000 ∧
    cF_neg_pi_third = f32ofRat true 627832957178498 (10 ^ 21) ∧
    cF_neg_pi_third = 0xB528885A ∧
    cF_four_over_pi = f32ofRat false 1273239544735163 (10 ^ 15) ∧
    cF_four_over_pi = 0x3FA2F983 :=
  ⟨rfl, rfl, rfl, rfl, by decide, by decide, rfl, by decide, rfl, by decide,
    rfl, by decide, rfl, by decide⟩

/-- C3: in the sine kernel, the pre-sign-flip result of a lane is the
right interpolant (the even 4-term Horner/FMA polynomial in `(z-2)^2`)
exactly when `z > 1`, and the left interpolant (the odd 4-term Horner/FMA
polynomial in `z^2`, multiplied by `z`) otherwise; the two branches are
combined only through the AND-NOT / AND / OR mask arithmetic of
`psin_res0`. -/
theorem psin_branch_select (x : Packet8f) (i : Fin 8) :
    psin_res0 x i =
      (if fgtB (psin_z x i) cF_one then psin_right x i else psin_left x i) ∧
    psin_right x i =
      ffma (ffma (ffma cF_cr6 (sinS_zm22 (x i)) cF_cr4) (sinS_zm22 (x i)) cF_cr2)
        (sinS_zm22 (x i)) cF_cr0 ∧
    sinS_zm22 (x i) = fmul (fsub (psin_z x i) cF_two) (fsub (psin_z x i) cF_two) ∧
    psin_left x i =
      fmul (ffma (ffma (ffma cF_cl7 (sinS_z2 (x i)) cF_cl5) (sinS_z2 (x i)) cF_cl3)
        (sinS_z2 (x i)) cF_cl1) (psin_z x i) ∧
    sinS_z2 (x i) = fmul (psin_z x i) (psin_z x i) := by
  refine ⟨?_, rfl, rfl, rfl, rfl⟩
  have hl : sinS_left (x i) < 0x100000000 := fmul_lt _ _
  have hr : sinS_right (x i) < 0x100000000 := ffma_lt _ _ _
  have hcond : fgtB (psin_z x i) cF_one = sinS_ival (x i) := rfl
  rw [hcond]
  show sinS_res0 (x i) = _
  unfold sinS_res0
  cases hiv : sinS_ival (x i)
  · simp only [mask32, Bool.false_eq_true, if_false]
    rw [bandnot_zero_mask _ hl]
    simp only [band, bor, Nat.zero_and, Nat.or_zero]
    rfl
  · simp only [mask32, if_true]
    rw [bandnot_ones]
    simp only [band, bor, Nat.zero_or]
    rw [and_ones32 _ hr]
    rfl

/-- C4: the sine kernel's sign correction converts `shift` to a 32-bit
integer, isolates its lowest bit, shifts it into the sign-bit position
(bit 31), and XORs the resulting mask into the combined result: exactly
the lanes with an odd integer `shift` have their sign bit flipped
(XOR with `0x80000000`) and all other lanes pass through unchanged. -/
theorem psin_sign_correction (x : Packet8f) (i : Fin 8) :
    psin x i =
      (if fcvt_i32 (psin_shift x i) % 2 = 1 then bxor (psin_res0 x i) 0x80000000
       else psin_res0 x i) ∧
    psin_sign_flip x i =
      (if fcvt_i32 (psin_shift x i) % 2 = 1 then 0x80000000 else 0) := by
  have hflip : sinS_sign_flip (x i) =
      (if fcvt_i32 (sinS_shift (x i)) % 2 = 1 then 0x80000000 else 0) := by
    unfold sinS_sign_flip sinS_shift_isodd sinS_shift_ints
    simp only [band, Nat.and_one_is_mod]
    rcases Nat.mod_two_eq_zero_or_one (fcvt_i32 (sinS_shift (x i))) with hm | hm <;>
      rw [hm] <;> simp
  constructor
  · show bxor (sinS_res0 (x i)) (sinS_sign_flip (x i)) =
      (if fcvt_i32 (sinS_shift (x i)) % 2 = 1 then bxor (sinS_res0 (x i)) 0x80000000
       else sinS_res0 (x i))
    rw [hflip]
    split
    · rfl
    · exact Nat.xor_zero _
  · exact hflip

/-- C8: the sine kernel maps a lane holding `+0.0` to exactly `+0.0`
(bit pattern `0`). -/
theorem psin_zero_lane (x : Packet8f) (i : Fin 8) (hx : x i = 0) : psin x i = 0 := by
  show sinS (x i) = 0
  rw [hx]
  decide

/-- Witness for C8. -/
theorem psin_zero_lane_witness : psin (fun _ => 0) 0 = 0 :=
  psin_zero_lane (fun _ => 0) 0 rfl

/-- C7: for 4-lane double-precision packets, `psqrt` delegates every lane
to the exact hardware square root and `prsqrt` returns
`1.0 / exact_sqrt(input)` lane-wise, identically under either value of
the fast-math build flag; the broadcast `1.0` is the binary64 pattern
`0x3FF0000000000000`. -/
theorem double_roots_delegate (fastMath : Bool) (sqrtHW64 : Nat → Nat)
    (divHW64 : Nat → Nat → Nat) (x : Packet4d) (i : Fin 4) :
    psqrt4d fastMath sqrtHW64 x i = sqrtHW64 (x i) ∧
    prsqrt4d fastMath sqrtHW64 divHW64 x i = divHW64 cD_one (sqrtHW64 (x i)) ∧
    psqrt4d fastMath sqrtHW64 x = psqrt4d (!fastMath) sqrtHW64 x ∧
    prsqrt4d fastMath sqrtHW64 divHW64 x = prsqrt4d (!fastMath) sqrtHW64 divHW64 x ∧
    cD_one = 0x3FF0000000000000 :=
  ⟨rfl, rfl, rfl, rfl, rfl⟩

/-- C9: every kernel of the file is deterministic: with the same
collaborators and build flag, identical input bit patterns produce
identical output bit patterns (the kernels are pure functions of their
inputs, with no hidden state). -/
theorem kernels_deterministic (fastMath : Bool) (est sqrtHW : Nat → Nat)
    (divHW : Nat → Nat → Nat) (sqrtHW64 : Nat → Nat) (divHW64 : Nat → Nat → Nat)
    (logk expk tanhk : Packet8f → Packet8f) (exp4k : Packet4d → Packet4d)
    (x y : Packet8f) (x4 y4 : Packet4d) (hxy : x = y) (hxy4 : x4 = y4) :
    psin x = psin y ∧
    psqrt8f fastMath est sqrtHW x = psqrt8f fastMath est sqrtHW y ∧
    prsqrt8f fastMath est sqrtHW divHW x = prsqrt8f fastMath est sqrtHW divHW y ∧
    psqrt4d fastMath sqrtHW64 x4 = psqrt4d fastMath sqrtHW64 y4 ∧
    prsqrt4d fastMath sqrtHW64 divHW64 x4 = prsqrt4d fastMath sqrtHW64 divHW64 y4 ∧
    plog8f logk x = plog8f logk y ∧
    pexp8f expk x = pexp8f expk y ∧
    ptanh8f tanhk x = ptanh8f tanhk y ∧
    pexp4d exp4k x4 = pexp4d exp4k y4 := by
  subst hxy
  subst hxy4
  exact ⟨rfl, rfl, rfl, rfl, rfl, rfl, rfl, rfl, rfl⟩

/-- Witness for C9: applied at concrete packets and collaborators. -/
theorem kernels_deterministic_witness :
    psin (fun _ => 0x3F800000) = psin (fun _ => 0x3F800000) :=
  (kernels_deterministic true id id (fun a _ => a) id (fun a _ => a) id id id id
    (fun _ => 0x3F800000) (fun _ => 0x3F800000) (fun _ => 0) (fun _ => 0)
    rfl rfl).1
